import Mathlib

/-!
Verification of the RLDS dataset builder pipeline
(`PPGM_dataset_builder.py` / `TDROID_KNOCK_OBJECT_OVER_dataset_builder.py`;
the two files are identical in all modelled code).

The Python source is shallowly embedded: every stateful object becomes an
explicit state value, every fallible operation returns `Except PyErr`, and
all randomness (`np.random.choice`) is passed in as an explicit draw
function whose validity (distinct, in-range, right length) is hypothesised
where a claim needs it.  Frame pixel data, HDF5 payloads and camera
observations are abstract type parameters: none of the modelled control
flow inspects them.
-/

/-- The Python exception kinds raised by the modelled code. -/
inductive PyErr : Type where
  | assertionError : PyErr
  | cvtColorError : PyErr
  | keyError : PyErr
  | valueError : PyErr
deriving DecidableEq, Repr

/-! ### MP4Reader (source lines 37-114)

State of one `MP4Reader`.  `decoderPos` is the index of the frame the
underlying `cv2.VideoCapture` will decode next (`CAP_PROP_POS_FRAMES`
semantics, an `Int` because the source assigns `index - 1`); `index` is the
reader's own `_index` counter; `skipReading` is the flag set by
`set_reading_parameters`. -/
structure MP4State where
  serial : String
  decoderPos : Int
  index : Nat
  skipReading : Bool
deriving DecidableEq, Repr

/-- `cv2.VideoCapture.read()`: succeeds iff the decoder position addresses a
real frame, returning the decoded frame and advancing the position; on
failure it returns `(False, None)`.  Colour conversion is a fixed bijective
per-frame map and is absorbed into `video`. -/
def mp4Read (video : Nat → φ) (frameCount : Nat) (st : MP4State) :
    Bool × Option φ × Int :=
  if 0 ≤ st.decoderPos ∧ st.decoderPos < (frameCount : Int) then
    (true, some (video st.decoderPos.toNat), st.decoderPos + 1)
  else
    (false, none, st.decoderPos)

/-- `MP4Reader.read_camera` (source lines 88-110).  Note the source applies
`cv2.cvtColor` to the frame *before* checking `success`; `cvtColor` raises
when its input is `None`, which the model records as `cvtColorError`.  The
subsequent `if not success: return None` branch is kept although it is
unreachable.  On success the returned data dict is `{image: {serial:
frame}}`, modelled as an association list. -/
def read_camera (video : Nat → φ) (frameCount : Nat) (st : MP4State)
    (ignoreData : Bool) : Except PyErr (MP4State × Option (List (String × φ))) :=
  if st.skipReading then
    .ok (st, some [])
  else
    match mp4Read video frameCount st with
    | (success, optFrame, newPos) =>
      match optFrame with
      | none => .error .cvtColorError
      | some f =>
        let st1 : MP4State := { st with decoderPos := newPos, index := st.index + 1 }
        if success = false then .ok (st1, none)
        else if ignoreData then .ok (st1, none)
        else .ok (st1, some [(st.serial, f)])

/-- The `while self._index < index: self.read_camera(ignore_data=True)` loop
of `set_frame_index`; each iteration increments `_index` by exactly one, so
the iteration count is the initial `index - _index` gap. -/
def advanceLoop (video : Nat → φ) (frameCount : Nat) :
    Nat → MP4State → Except PyErr MP4State
  | 0, st => .ok st
  | n + 1, st =>
    match read_camera video frameCount st true with
    | .error e => .error e
    | .ok (st1, _) => advanceLoop video frameCount n st1

/-- `MP4Reader.set_frame_index` (source lines 73-82): a backward request
seeks the decoder to `index - 1` and sets `_index := index`; then the
catch-up loop decodes and discards frames while `_index < index`. -/
def set_frame_index (video : Nat → φ) (frameCount : Nat) (st : MP4State)
    (index : Nat) : Except PyErr MP4State :=
  if st.skipReading then
    .ok st
  else
    let st1 :=
      if index < st.index then
        { st with decoderPos := (index : Int) - 1, index := index }
      else st
    advanceLoop video frameCount (index - st1.index) st1

/-- `MP4Reader.set_reading_parameters` (source lines 50-60): records whether
image decoding is wanted; `skip_reading = not image`. -/
def set_reading_parameters (st : MP4State) (image : Bool) : MP4State :=
  { st with skipReading := !image }

/-- A freshly opened `MP4Reader` (source lines 38-47) positioned at frame 0,
after `set_reading_parameters(image=True)`. -/
def initState (serial : String) : MP4State :=
  { serial := serial, decoderPos := 0, index := 0, skipReading := false }

/-- `n + 1` consecutive `read_camera` calls with decoding enabled, returning
the final state and the data of the last read: sequential playback from the
current position. -/
def readSeq (video : Nat → φ) (frameCount : Nat) (st : MP4State) :
    Nat → Except PyErr (MP4State × Option (List (String × φ)))
  | 0 => read_camera video frameCount st false
  | n + 1 =>
    match read_camera video frameCount st false with
    | .error e => .error e
    | .ok (st1, _) => readSeq video frameCount st1 n

/-- Decidable equality for `Except`, used to evaluate concrete runs. -/
instance exceptDecEq {ε α : Type} [DecidableEq ε] [DecidableEq α] : DecidableEq (Except ε α)
  | .error a, .error b =>
    if h : a = b then .isTrue (h ▸ rfl) else .isFalse (fun hh => h (Except.error.inj hh))
  | .error _, .ok _ => .isFalse Except.noConfusion
  | .ok _, .error _ => .isFalse Except.noConfusion
  | .ok a, .ok b =>
    if h : a = b then .isTrue (h ▸ rfl) else .isFalse (fun hh => h (Except.ok.inj hh))

/-- `str.endswith(suffix)`, computed on the character list. -/
def strEndsWith (s sfx : String) : Bool := sfx.data.isSuffixOf s.data

/-- `str[:-n]` for `n ≤ len(str)`, computed on the character list. -/
def strDropRight (s : String) (n : Nat) : String := ⟨s.data.take (s.data.length - n)⟩

/-! ### Camera type dictionaries (source lines 18-34) -/

/-- `CAMERA_TYPE_DICT` (source lines 18-21): maps the two placeholder
identifiers to the numeric camera type. -/
def CAMERA_TYPE_DICT (camId : String) : Option Nat :=
  if camId = "wrist_camera_id" then some 0
  else if camId = "static_camera_id" then some 1
  else none

/-- `CAMERA_TYPE_TO_STRING_DICT` (source lines 23-26). -/
def CAMERA_TYPE_TO_STRING_DICT (t : Nat) : Option String :=
  if t = 0 then some "wrist_camera"
  else if t = 1 then some "static_camera"
  else none

/-- `get_camera_type` (source lines 29-34). -/
def get_camera_type (camId : String) : Option String :=
  match CAMERA_TYPE_DICT camId with
  | none => none
  | some t => CAMERA_TYPE_TO_STRING_DICT t

/-- The camera-role map written over `timestep["observation"]["camera_type"]`
by `load_trajectory` (source lines 324-327): the four configured ids map to
`0, 0, 1, 1` and are then sent through `CAMERA_TYPE_TO_STRING_DICT`. -/
def overriddenCameraTypeDict (wristId staticId : String) : List (String × String) :=
  [(wristId, "wrist_camera"), (wristId ++ "_depth", "wrist_camera"),
   (staticId, "static_camera"), (staticId ++ "_depth", "static_camera")]

/-! ### RecordedMultiCameraWrapper (source lines 117-165) -/

/-- The classification loop of `RecordedMultiCameraWrapper.__init__` (source
lines 128-138) over the globbed file basenames: `<serial>_depth.mp4` opens a
grayscale reader, any other `*.mp4` a colour reader, anything else raises
`ValueError`.  The resulting `camera_dict` is kept as an association list in
insertion order (directory entries are distinct, so no key is overwritten);
the `Bool` is the reader's `grayscale` flag. -/
def rmcwClassify : List String → Except PyErr (List (String × Bool))
  | [] => .ok []
  | f :: rest =>
    let serial := strDropRight f 4
    if strEndsWith f "_depth.mp4" then
      (rmcwClassify rest).map (fun d => (serial, true) :: d)
    else if strEndsWith f ".mp4" then
      (rmcwClassify rest).map (fun d => (serial, false) :: d)
    else
      .error .valueError

/-- `RecordedMultiCameraWrapper.__init__` (source lines 117-138): the glob
`recording_folderpath + "/*.mp4"` selects exactly the basenames ending in
`.mp4`; the classification loop then runs over that selection (`svo_filepaths`
is always empty). -/
def recordedMultiCameraWrapperInit (files : List String) :
    Except PyErr (List (String × Bool)) :=
  rmcwClassify (files.filter (fun f => strEndsWith f ".mp4"))

/-- One opened camera of a `RecordedMultiCameraWrapper`: its video content,
frame count and current reader state. -/
structure CamRec (φ : Type) where
  video : Nat → φ
  frameCount : Nat
  state : MP4State

/-- Python `dict` lookup `m[k]` over an association list (`none` models the
`KeyError` case). -/
def lookupStr (m : List (String × String)) (k : String) : Option String :=
  match m.find? (fun p => p.1 == k) with
  | some p => some p.2
  | none => none

/-- The per-camera body of `RecordedMultiCameraWrapper.read_cameras` (source
lines 148-157): look the camera id up in `camera_type_dict` (a missing key
raises `KeyError`), fetch the per-role kwargs (`image` defaults to `True`),
apply `set_reading_parameters`, `set_frame_index` when an index was given,
then `read_camera`. -/
def processCamera (camKwargs : String → Option Bool) (roleMap : List (String × String))
    (index : Option Nat) (c : CamRec φ) :
    Except PyErr (MP4State × Option (List (String × φ))) :=
  match lookupStr roleMap c.state.serial with
  | none => .error .keyError
  | some camType =>
    let image := (camKwargs camType).getD true
    let st := set_reading_parameters c.state image
    match (match index with
           | some i => set_frame_index c.video c.frameCount st i
           | none => .ok st) with
    | .error e => .error e
    | .ok st1 => read_camera c.video c.frameCount st1 false

/-- `RecordedMultiCameraWrapper.read_cameras` (source lines 141-165): process
each camera in turn, merging the returned data dicts into `full_obs_dict`
(modelled by list append; each camera is touched once per call, so the
updated per-camera states, which Python keeps in `self.camera_dict`, do not
feed back into this call).  If any camera's `read_camera` returns `None`,
the whole call returns `None`. -/
def read_cameras (camKwargs : String → Option Bool) (index : Option Nat)
    (roleMap : List (String × String)) :
    List (CamRec φ) → List (String × φ) → Except PyErr (Option (List (String × φ)))
  | [], acc => .ok (some acc)
  | c :: rest, acc =>
    match processCamera camKwargs roleMap index c with
    | .error e => .error e
    | .ok (_, none) => .ok none
    | .ok (_, some dd) => read_cameras camKwargs index roleMap rest (acc ++ dd)

/-! ### HDF5 log model and get_hdf5_length (source lines 169-245) -/

/-- A node of the structured HDF5 log: a named leaf data series with its
length, or a named group of child nodes.  (`h5py` exposes no other node
kinds to this code, so the `raise ValueError` arm of `get_hdf5_length` has
no counterpart.) -/
inductive H5 : Type where
  | dataset (name : String) (len : Nat) : H5
  | group (name : String) (children : List H5) : H5

/-- The key under which a node is stored in its parent. -/
def H5.nodeName : H5 → String
  | .dataset s _ => s
  | .group s _ => s

mutual

/-- `get_hdf5_length` (source lines 169-188) applied to one node: a dataset
reports `len(curr_data)`, a group folds over its children.  The `Option` in
the result models the Python `None` initial value, still returned when a
group has no non-ignored children. -/
def get_hdf5_length (ignore : List String) : H5 → Except PyErr (Option Nat)
  | .dataset _ n => .ok (some n)
  | .group _ cs => lengthFold ignore cs none

/-- The `for key in hdf5_file.keys()` loop of `get_hdf5_length` with its
running `length` accumulator: skip ignored keys, compute the child length,
set the accumulator if still `None`, and `assert curr_length == length`. -/
def lengthFold (ignore : List String) : List H5 → Option Nat → Except PyErr (Option Nat)
  | [], len => .ok len
  | c :: rest, len =>
    if c.nodeName ∈ ignore then lengthFold ignore rest len
    else
      match get_hdf5_length ignore c with
      | .error e => .error e
      | .ok curr =>
        let len2 := if len = none then curr else len
        if curr = len2 then lengthFold ignore rest len2 else .error .assertionError

end

mutual

/-- The lengths of all non-ignored leaf data series below a node (the node
itself when it is a dataset). -/
def leafLens (ignore : List String) : H5 → List Nat
  | .dataset _ n => [n]
  | .group _ cs => leafLensList ignore cs

/-- `leafLens` over a child list, skipping ignored keys. -/
def leafLensList (ignore : List String) : List H5 → List Nat
  | [] => []
  | c :: rest =>
    (if c.nodeName ∈ ignore then [] else leafLens ignore c) ++ leafLensList ignore rest

end

/-- Whether a child list has at least one non-ignored entry. -/
def hasNonIgnored (ignore : List String) (cs : List H5) : Bool :=
  cs.any (fun c => !(decide (c.nodeName ∈ ignore)))

mutual

/-- Every group below (and including) the node has at least one non-ignored
child, and all its non-ignored children satisfy the same. -/
def groupsOK (ignore : List String) : H5 → Bool
  | .dataset _ _ => true
  | .group _ cs => hasNonIgnored ignore cs && groupsOKList ignore cs

/-- `groupsOK` for every non-ignored member of a child list. -/
def groupsOKList (ignore : List String) : List H5 → Bool
  | [] => true
  | c :: rest =>
    (decide (c.nodeName ∈ ignore) || groupsOK ignore c) && groupsOKList ignore rest

end

/-- `TrajectoryReader.__init__` computing `self._length` (source line 215):
`get_hdf5_length` on the whole file with no ignored keys; `length()` returns
the cached value. -/
def trajectoryReaderLength (file : H5) : Except PyErr (Option Nat) :=
  get_hdf5_length [] file

/-! ### load_trajectory (source lines 284-363)

The low-dimensional log payload and the per-index camera observation are
abstract (`α`, `ω`): `data i` is the record `read_timestep(index=i)` loads,
`movement i` is its `observation.controller_info.movement_enabled` flag with
the `get(..., True)` default already applied, and `cams i` is the value
`camera_reader.read_cameras(index=i, ...)` returns at index `i` (`none` is
the Python `None` failure).  The two `np.random.choice` calls are the
explicit draw functions `rng1`/`rng2` (population size, sample size ↦ drawn
list). -/

/-- Result of a completed `load_trajectory` call (the `target_label` is not
modelled), together with which of the two opened readers were closed before
returning: the source calls `traj_reader.close()` (line 360) and contains no
call that releases `camera_reader` (`MP4Reader.disable_camera`, lines
112-114, has no call site). -/
structure LTResult (α ω : Type) where
  timesteps : List (α × Option ω)
  closedTrajReader : Bool
  closedCameraReader : Bool
deriving DecidableEq

/-- The index set `indices_to_save` (source lines 305-313): with a truthy
`num_samples_per_traj`, possibly inflate by the coefficient (`int(x * 1.5)`
is exact for these magnitudes, modelled as the rational floor), cap at the
horizon, draw without replacement and `np.sort`; otherwise `np.arange`. -/
def indicesToSave (numSamples : Option Nat) (removeSkipped : Bool) (coeff : ℚ)
    (horizon : Nat) (rng1 : Nat → Nat → List Nat) : List Nat :=
  match numSamples with
  | some n =>
    if n ≠ 0 then
      let numToSave := if removeSkipped then Nat.floor ((n : ℚ) * coeff) else n
      let maxSize := min numToSave horizon
      List.insertionSort (· ≤ ·) (rng1 horizon maxSize)
    else List.range horizon
  | none => List.range horizon

/-- The `for i in indices_to_save` loop (source lines 316-348).
`readImages` is `traj_reader._read_images`: `read_timestep(index=i)` asserts
it is false.  The read itself asserts `i < horizon`.  With cameras enabled a
`None` from `read_cameras` prints and `break`s, keeping what was already
collected; otherwise the timestep, enriched with the camera observation, is
appended unless step filtering drops it. -/
def collectLoop (data : Nat → α) (movement : Nat → Bool) (cams : Nat → Option ω)
    (readRec readImages removeSkipped : Bool) (horizon : Nat) :
    List Nat → Except PyErr (List (α × Option ω))
  | [] => .ok []
  | i :: rest =>
    if readImages then .error .assertionError
    else if i < horizon then
      if readRec then
        match cams i with
        | none => .ok []
        | some obs =>
          if removeSkipped && !(movement i) then
            collectLoop data movement cams readRec readImages removeSkipped horizon rest
          else
            (collectLoop data movement cams readRec readImages removeSkipped horizon rest).map
              (fun t => (data i, some obs) :: t)
      else
        if removeSkipped && !(movement i) then
          collectLoop data movement cams readRec readImages removeSkipped horizon rest
        else
          (collectLoop data movement cams readRec readImages removeSkipped horizon rest).map
            (fun t => (data i, (none : Option ω)) :: t)
    else .error .assertionError

/-- NumPy fancy indexing `timestep_list[ind_to_keep]`: element `j` of the
result is `timestep_list[ind_to_keep[j]]` (the draws supplied by
`np.random.choice` are always in range, so the `Option` never drops). -/
def fancyIndex (l : List β) (idx : List Nat) : List β :=
  idx.filterMap (fun i => l.get? i)

/-- The "Remove Extra Transitions" post-pass (source lines 350-354): when a
target count was requested and the collected list still exceeds it, keep a
second uniform draw of `num_samples_per_traj` positions — the draw is NOT
sorted before indexing. -/
def remove_extra_transitions (numSamples : Option Nat) (rng2 : Nat → Nat → List Nat)
    (ts : List β) : List β :=
  match numSamples with
  | some n => if n < ts.length then fancyIndex ts (rng2 ts.length n) else ts
  | none => ts

/-- `load_trajectory` (source lines 284-363).  `recordingGiven` is
`recording_folderpath is not None`, `isVideoFolder` is whether the log has
an embedded `observations/videos` group (source line 213). -/
def load_trajectory (data : Nat → α) (movement : Nat → Bool) (cams : Nat → Option ω)
    (readCameras recordingGiven isVideoFolder removeSkipped : Bool)
    (numSamples : Option Nat) (coeff : ℚ) (horizon : Nat)
    (rng1 rng2 : Nat → Nat → List Nat) : Except PyErr (LTResult α ω) :=
  let readHdf5Images := readCameras && !recordingGiven
  let readRec := readCameras && recordingGiven
  let readImages := readHdf5Images && isVideoFolder
  let indices := indicesToSave numSamples removeSkipped coeff horizon rng1
  (collectLoop data movement cams readRec readImages removeSkipped horizon indices).map
    (fun ts =>
      { timesteps := remove_extra_transitions numSamples rng2 ts
        closedTrajReader := true
        closedCameraReader := false })

/-! ### _parse_example step assembly (source lines 559-619) -/

/-- The per-step flag fields of one emitted record (`FRAMESKIP = 1`, so the
step list is the assembled trajectory itself; image/action payloads are not
modelled). -/
structure StepRecord where
  reward : ℚ
  discount : ℚ
  is_first : Bool
  is_last : Bool
  is_terminal : Bool
deriving DecidableEq, Repr

/-- The episode-assembly loop of `_parse_example` (source lines 575-609):
`reward = float(i == len(data) - 1)`, `discount = 1.0`, and the three
position booleans. -/
def parseExampleSteps (data : List σ) : List StepRecord :=
  data.enum.map (fun p =>
    { reward := if p.1 = data.length - 1 then 1 else 0
      discount := 1
      is_first := decide (p.1 = 0)
      is_last := decide (p.1 = data.length - 1)
      is_terminal := decide (p.1 = data.length - 1) })
/-! ### Helper lemmas -/

theorem pairwise_congr_mem {α : Type} {R S : α → α → Prop} :
    ∀ {l : List α}, (∀ a ∈ l, ∀ b ∈ l, (R a b ↔ S a b)) →
      (List.Pairwise R l ↔ List.Pairwise S l)
  | [], _ => by simp
  | a :: l, h => by
    simp only [List.pairwise_cons]
    constructor
    · rintro ⟨h1, h2⟩
      refine ⟨fun b hb => (h a (by simp) b (by simp [hb])).mp (h1 b hb), ?_⟩
      exact (pairwise_congr_mem (fun x hx y hy => h x (by simp [hx]) y (by simp [hy]))).mp h2
    · rintro ⟨h1, h2⟩
      refine ⟨fun b hb => (h a (by simp) b (by simp [hb])).mpr (h1 b hb), ?_⟩
      exact (pairwise_congr_mem (fun x hx y hy => h x (by simp [hx]) y (by simp [hy]))).mpr h2

theorem fancyIndex_sub {β : Type} (l : List β) (idx : List Nat) :
    ∀ x ∈ fancyIndex l idx, x ∈ l := by
  intro x hx
  obtain ⟨i, _, hget⟩ := List.mem_filterMap.mp hx
  exact List.getElem?_mem (List.get?_eq_getElem? l i ▸ hget)

theorem remove_extra_transitions_sub {β : Type} (numSamples : Option Nat)
    (rng2 : Nat → Nat → List Nat) (ts : List β) :
    ∀ x ∈ remove_extra_transitions numSamples rng2 ts, x ∈ ts := by
  intro x hx
  cases numSamples with
  | none => exact hx
  | some n =>
    simp only [remove_extra_transitions] at hx
    split at hx
    · exact fancyIndex_sub ts _ x hx
    · exact hx

theorem get_fst_lt_iff {γ : Type} {ts : List (Nat × γ)}
    (hts : List.Pairwise (fun a b => a.1 < b.1) ts) {p q : Nat} {v w : Nat × γ}
    (hp : ts.get? p = some v) (hq : ts.get? q = some w) :
    (v.1 < w.1 ↔ p < q) := by
  obtain ⟨hplen, hv⟩ := List.getElem?_eq_some.mp (List.get?_eq_getElem? ts p ▸ hp)
  obtain ⟨hqlen, hw⟩ := List.getElem?_eq_some.mp (List.get?_eq_getElem? ts q ▸ hq)
  subst hv hw
  constructor
  · intro hlt
    rcases Nat.lt_trichotomy p q with h | h | h
    · exact h
    · subst h; exact absurd hlt (lt_irrefl _)
    · have := List.pairwise_iff_getElem.mp hts q p hqlen hplen h
      exact absurd (lt_trans hlt this) (lt_irrefl _)
  · intro hlt
    exact List.pairwise_iff_getElem.mp hts p q hplen hqlen hlt

theorem fancyIndex_pairwise_iff {γ : Type} {ts : List (Nat × γ)}
    (hts : List.Pairwise (fun a b => a.1 < b.1) ts) :
    ∀ (pos : List Nat), (∀ p ∈ pos, p < ts.length) →
      (List.Pairwise (fun a b => a.1 < b.1) (fancyIndex ts pos) ↔
        List.Pairwise (· < ·) pos)
  | [], _ => by simp [fancyIndex]
  | p :: rest, hpos => by
    have hplen : p < ts.length := hpos p (by simp)
    obtain ⟨v, hv⟩ : ∃ v, ts.get? p = some v := ⟨_, List.get?_eq_get hplen⟩
    have hrest : ∀ q ∈ rest, q < ts.length := fun q hq => hpos q (by simp [hq])
    have hcons : fancyIndex ts (p :: rest) = v :: fancyIndex ts rest := by
      simp only [fancyIndex, List.filterMap_cons, hv]
    rw [hcons]
    simp only [List.pairwise_cons]
    constructor
    · rintro ⟨h1, h2⟩
      refine ⟨fun q hq => ?_, (fancyIndex_pairwise_iff hts rest hrest).mp h2⟩
      obtain ⟨w, hw⟩ : ∃ w, ts.get? q = some w := ⟨_, List.get?_eq_get (hrest q hq)⟩
      have hwmem : w ∈ fancyIndex ts rest := by
        simp only [fancyIndex, List.mem_filterMap]
        exact ⟨q, hq, hw⟩
      exact (get_fst_lt_iff hts hv hw).mp (h1 w hwmem)
    · rintro ⟨h1, h2⟩
      refine ⟨fun w hw => ?_, (fancyIndex_pairwise_iff hts rest hrest).mpr h2⟩
      obtain ⟨q, hq, hwq⟩ := List.mem_filterMap.mp hw
      exact (get_fst_lt_iff hts hv hwq).mpr (h1 q hq)

/-! ### Claim C2 -/

/-- C2: refuted as stated — seek-then-read equivalence fails after a backward
seek.  A fresh 6-frame reader (`video n = n`) advanced sequentially past
frame 4 and then asked for frame 2 via `set_frame_index` seeks the decoder to
frame 1 but sets `_index = 2`, so the catch-up loop does not run and the next
`read_camera` returns frame 1, whereas sequential reading from frame 0
returns frame 2 at that position.  The forward catch-up loop makes the
equivalence the evident intent of `set_frame_index`; the backward branch's
seek target `index - 1` is off by one against the `CAP_PROP_POS_FRAMES`
convention (position = next frame to decode). -/
theorem c2_backward_seek_off_by_one :
    ((readSeq (fun i => i) 6 (initState "cam") 4).bind (fun r =>
        (set_frame_index (fun i => i) 6 r.1 2).bind (fun st =>
          read_camera (fun i => i) 6 st false)))
      = .ok (⟨"cam", 2, 3, false⟩, some [("cam", 1)])
    ∧ readSeq (fun i => i) 6 (initState "cam") 2
      = .ok (⟨"cam", 3, 3, false⟩, some [("cam", 2)])
    ∧ (1 : Nat) ≠ 2 := by
  refine ⟨by decide, by decide, by decide⟩

/-! ### Claim C4 -/

/-- C4: the claim states `read_camera` on an exhausted stream returns `None`
without raising; the code instead raises, because `cv2.cvtColor` is applied
to the failed read's `None` frame before the `success` check.  Here a
2-frame reader that has already consumed both frames errors instead of
returning `None`. -/
theorem c4_eof_read_raises :
    read_camera (fun i => (i : Nat)) 2 ⟨"cam", 2, 2, false⟩ false
      = .error PyErr.cvtColorError := by decide

/-! ### Claim C6 -/

/-- C6: in the episode assembled by `_parse_example`, `reward = 1.0`,
`is_last = True` and `is_terminal = True` hold exactly on the final step,
`reward = 0.0` and `False` flags on all others, `is_first = True` exactly on
step 0, and `discount = 1.0` on every step. -/
theorem c6_step_flags {σ : Type} (data : List σ) (hne : data ≠ []) (i : Nat)
    (hi : i < (parseExampleSteps data).length) :
    (((parseExampleSteps data).get ⟨i, hi⟩).reward = 1 ↔ i = data.length - 1) ∧
    (((parseExampleSteps data).get ⟨i, hi⟩).reward = 0 ↔ ¬(i = data.length - 1)) ∧
    (((parseExampleSteps data).get ⟨i, hi⟩).is_last = true ↔ i = data.length - 1) ∧
    (((parseExampleSteps data).get ⟨i, hi⟩).is_terminal = true ↔ i = data.length - 1) ∧
    (((parseExampleSteps data).get ⟨i, hi⟩).is_first = true ↔ i = 0) ∧
    ((parseExampleSteps data).get ⟨i, hi⟩).discount = 1 := by
  have hget : (parseExampleSteps data).get ⟨i, hi⟩ =
      { reward := if i = data.length - 1 then 1 else 0
        discount := 1
        is_first := decide (i = 0)
        is_last := decide (i = data.length - 1)
        is_terminal := decide (i = data.length - 1) } := by
    simp [parseExampleSteps, List.get_eq_getElem, List.getElem_map, List.getElem_enum]
  rw [hget]
  by_cases h : i = data.length - 1 <;> by_cases h0 : i = 0 <;> simp [h, h0]

/-- Witness for C6 at the 3-step episode `[0, 1, 2]`, final step `i = 2`. -/
theorem c6_step_flags_witness :
    (((parseExampleSteps ([0, 1, 2] : List Nat)).get ⟨2, by decide⟩).reward = 1
        ↔ 2 = ([0, 1, 2] : List Nat).length - 1) ∧
    (((parseExampleSteps ([0, 1, 2] : List Nat)).get ⟨2, by decide⟩).reward = 0
        ↔ ¬(2 = ([0, 1, 2] : List Nat).length - 1)) ∧
    (((parseExampleSteps ([0, 1, 2] : List Nat)).get ⟨2, by decide⟩).is_last = true
        ↔ 2 = ([0, 1, 2] : List Nat).length - 1) ∧
    (((parseExampleSteps ([0, 1, 2] : List Nat)).get ⟨2, by decide⟩).is_terminal = true
        ↔ 2 = ([0, 1, 2] : List Nat).length - 1) ∧
    (((parseExampleSteps ([0, 1, 2] : List Nat)).get ⟨2, by decide⟩).is_first = true
        ↔ 2 = 0) ∧
    ((parseExampleSteps ([0, 1, 2] : List Nat)).get ⟨2, by decide⟩).discount = 1 :=
  c6_step_flags [0, 1, 2] (by decide) 2 (by decide)

/-! ### Claim C9 -/

/-- C9: refuted as stated — a directory listing with a file of another
extension does not make construction fail: the glob never selects
`notes.txt`, so `RecordedMultiCameraWrapper.__init__` succeeds and silently
ignores it. -/
theorem c9_counterexample :
    recordedMultiCameraWrapperInit ["138422074005.mp4", "notes.txt"]
      = .ok [("138422074005", false)] := by decide

theorem rmcwClassify_all_mp4 :
    ∀ (l : List String), (∀ f ∈ l, strEndsWith f ".mp4" = true) →
      rmcwClassify l = .ok (l.map (fun f => (strDropRight f 4, strEndsWith f "_depth.mp4")))
  | [], _ => rfl
  | f :: rest, h => by
    have hf : strEndsWith f ".mp4" = true := h f (by simp)
    have ih := rmcwClassify_all_mp4 rest (fun g hg => h g (by simp [hg]))
    by_cases hd : strEndsWith f "_depth.mp4" = true
    · simp [rmcwClassify, hd, ih, Except.map]
    · have hd2 : strEndsWith f "_depth.mp4" = false := by simpa using hd
      simp [rmcwClassify, hd2, hf, ih, Except.map]

/-- C9 (amended): construction considers only the `*.mp4` files selected by
the glob — every other file is silently ignored, not rejected — and every
selected file is accepted: a grayscale reader for the `_depth.mp4` suffix,
a colour reader otherwise, so the `raise ValueError` arm is unreachable and
construction never fails. -/
theorem c9_ignores_non_mp4 (files : List String) :
    recordedMultiCameraWrapperInit files
      = .ok ((files.filter (fun f => strEndsWith f ".mp4")).map
          (fun f => (strDropRight f 4, strEndsWith f "_depth.mp4"))) :=
  rmcwClassify_all_mp4 _ (fun f hf => (List.mem_filter.mp hf).2)

/-! ### Claim C8 -/

/-- C8: refuted as stated — a run with a recording folder closes only the
`TrajectoryReader`; the camera readers are left open (the first component is
`closedTrajReader`, the second `closedCameraReader`). -/
theorem c8_counterexample :
    (load_trajectory (fun i => i) (fun _ => true) (fun _ => some ()) true true false false
        none ((3 : ℚ)/2) 2 (fun _ _ => []) (fun _ _ => [])).map
      (fun r => (r.closedTrajReader, r.closedCameraReader)) = .ok (true, false) := by
  decide

/-- C8 (amended): every invocation of `load_trajectory` that returns closes
the `TrajectoryReader` before returning, including when the assembly loop
terminated early on a camera failure — but it never closes the
`MultiCameraSource` (`MP4Reader.disable_camera` has no call site). -/
theorem c8_closes_traj_reader_only {α ω : Type} (data : Nat → α) (movement : Nat → Bool)
    (cams : Nat → Option ω) (readCameras recordingGiven isVideoFolder removeSkipped : Bool)
    (numSamples : Option Nat) (coeff : ℚ) (horizon : Nat) (rng1 rng2 : Nat → Nat → List Nat)
    (r : LTResult α ω)
    (h : load_trajectory data movement cams readCameras recordingGiven isVideoFolder
        removeSkipped numSamples coeff horizon rng1 rng2 = .ok r) :
    r.closedTrajReader = true ∧ r.closedCameraReader = false := by
  simp only [load_trajectory, Except.map] at h
  split at h
  · exact Except.noConfusion h
  · have := Except.ok.inj h
    rw [← this]
    exact ⟨rfl, rfl⟩

/-- Witness for C8 (amended) on a 2-step, no-subsampling run. -/
theorem c8_closes_traj_reader_only_witness :
    (⟨[((0 : Nat), some ()), (1, some ())], true, false⟩ : LTResult Nat Unit).closedTrajReader = true
    ∧ (⟨[((0 : Nat), some ()), (1, some ())], true, false⟩ : LTResult Nat Unit).closedCameraReader = false :=
  c8_closes_traj_reader_only (fun i => i) (fun _ => true) (fun _ => some ()) true true false false
    none ((3 : ℚ)/2) 2 (fun _ _ => []) (fun _ _ => []) _ (by decide)

/-! ### Claim C10 -/

theorem read_camera_err_only {φ : Type} (video : Nat → φ) (fc : Nat) (st : MP4State)
    (ig : Bool) (e : PyErr) (h : read_camera video fc st ig = .error e) :
    e = .cvtColorError := by
  unfold read_camera at h
  split at h
  · exact Except.noConfusion h
  · split at h
    · split at h
      · exact (Except.error.inj h).symm
      · split at h
        · exact Except.noConfusion h
        · split at h
          · exact Except.noConfusion h
          · exact Except.noConfusion h

theorem advanceLoop_err_only {φ : Type} (video : Nat → φ) (fc : Nat) :
    ∀ (n : Nat) (st : MP4State) (e : PyErr),
      advanceLoop video fc n st = .error e → e = .cvtColorError
  | 0, _, _, h => Except.noConfusion h
  | n + 1, st, e, h => by
    rw [advanceLoop] at h
    cases hrc : read_camera video fc st true with
    | error e2 =>
      rw [hrc] at h
      exact (Except.error.inj h) ▸ read_camera_err_only video fc st true e2 hrc
    | ok p =>
      rw [hrc] at h
      obtain ⟨st1, d⟩ := p
      exact advanceLoop_err_only video fc n st1 e h

theorem set_frame_index_err_only {φ : Type} (video : Nat → φ) (fc : Nat) (st : MP4State)
    (i : Nat) (e : PyErr) (h : set_frame_index video fc st i = .error e) :
    e = .cvtColorError := by
  unfold set_frame_index at h
  split at h
  · exact Except.noConfusion h
  · exact advanceLoop_err_only video fc _ _ e h

theorem processCamera_err_only {φ : Type} (camKwargs : String → Option Bool)
    (roleMap : List (String × String)) (index : Option Nat) (c : CamRec φ) (e : PyErr)
    (hfound : (lookupStr roleMap c.state.serial).isSome)
    (h : processCamera camKwargs roleMap index c = .error e) : e = .cvtColorError := by
  simp only [processCamera] at h
  split at h
  · rename_i hl
    rw [hl] at hfound
    exact absurd hfound (by simp)
  · cases index with
    | none => exact read_camera_err_only _ _ _ _ _ h
    | some i =>
      split at h
      · rename_i e2 hsf
        exact (Except.error.inj h) ▸ set_frame_index_err_only _ _ _ _ e2 hsf
      · exact read_camera_err_only _ _ _ _ _ h

theorem read_cameras_keyError {φ : Type} (camKwargs : String → Option Bool)
    (roleMap : List (String × String)) (index : Option Nat) (c : CamRec φ)
    (post : List (CamRec φ)) (hmiss : lookupStr roleMap c.state.serial = none) :
    ∀ (pre : List (CamRec φ)) (acc : List (String × φ)),
      (∀ p ∈ pre, ∃ st dd, processCamera camKwargs roleMap index p = .ok (st, some dd)) →
      read_cameras camKwargs index roleMap (pre ++ c :: post) acc = .error .keyError
  | [], acc, _ => by
    simp only [List.nil_append, read_cameras, processCamera, hmiss]
  | p :: pre, acc, hok => by
    obtain ⟨st, dd, hp⟩ := hok p (by simp)
    simp only [List.cons_append, read_cameras, hp]
    exact read_cameras_keyError camKwargs roleMap index c post hmiss pre (acc ++ dd)
      (fun q hq => hok q (by simp [hq]))

theorem read_cameras_no_keyError {φ : Type} (camKwargs : String → Option Bool)
    (roleMap : List (String × String)) (index : Option Nat) :
    ∀ (cams : List (CamRec φ)) (acc : List (String × φ)),
      (∀ c ∈ cams, (lookupStr roleMap c.state.serial).isSome) →
      read_cameras camKwargs index roleMap cams acc ≠ .error .keyError
  | [], acc, _ => by simp [read_cameras]
  | c :: rest, acc, hall => by
    have hc := hall c (by simp)
    cases hpc : processCamera camKwargs roleMap index c with
    | error e =>
      have := processCamera_err_only camKwargs roleMap index c e hc hpc
      simp only [read_cameras, hpc, this]
      intro hcontra
      exact PyErr.noConfusion (Except.error.inj hcontra)
    | ok pr =>
      obtain ⟨st, dd⟩ := pr
      cases dd with
      | none => simp [read_cameras, hpc]
      | some dd =>
        simp only [read_cameras, hpc]
        exact read_cameras_no_keyError camKwargs roleMap index rest (acc ++ dd)
          (fun q hq => hall q (by simp [hq]))

/-- C10: in `read_cameras` every discovered camera id is looked up
unconditionally in `camera_type_dict`: if a camera whose serial is missing
from the supplied role map is reached (every camera before it read
successfully), the call crashes with `KeyError` instead of returning the
`None` failure value; and when every discovered id is a key of the role map
the call never raises `KeyError` — the lookup precondition is exactly what
makes the call total in that respect. -/
theorem c10_role_lookup_crash :
    (∀ (φ : Type) (camKwargs : String → Option Bool) (roleMap : List (String × String))
        (index : Option Nat) (acc : List (String × φ)) (pre : List (CamRec φ))
        (c : CamRec φ) (post : List (CamRec φ)),
      (∀ p ∈ pre, ∃ st dd, processCamera camKwargs roleMap index p = .ok (st, some dd)) →
      lookupStr roleMap c.state.serial = none →
      read_cameras camKwargs index roleMap (pre ++ c :: post) acc = .error .keyError)
    ∧ (∀ (φ : Type) (camKwargs : String → Option Bool) (roleMap : List (String × String))
        (index : Option Nat) (acc : List (String × φ)) (cams : List (CamRec φ)),
      (∀ c ∈ cams, (lookupStr roleMap c.state.serial).isSome) →
      read_cameras camKwargs index roleMap cams acc ≠ .error .keyError) :=
  ⟨fun _ camKwargs roleMap index acc pre c post hok hmiss =>
      read_cameras_keyError camKwargs roleMap index c post hmiss pre acc hok,
   fun _ camKwargs roleMap index acc cams hall =>
      read_cameras_no_keyError camKwargs roleMap index cams acc hall⟩

/-- Witness for C10: a fifth camera file `extra.mp4` alongside the four
configured wrist/static ids of the PPGM builder makes `read_cameras` raise
`KeyError`. -/
theorem c10_role_lookup_crash_witness :
    read_cameras (fun _ => none) (some 0)
      (overriddenCameraTypeDict "138422074005" "140122076178")
      [⟨fun _ => (0 : Nat), 1, initState "extra"⟩] [] = .error PyErr.keyError :=
  c10_role_lookup_crash.1 Nat (fun _ => none)
    (overriddenCameraTypeDict "138422074005" "140122076178") (some 0) [] []
    ⟨fun _ => (0 : Nat), 1, initState "extra"⟩ [] (by simp) (by decide)

/-! ### Claim C1 -/

/-- C1: refuted as stated — a 3-step trajectory with no step skipped,
`num_samples_per_traj = 2` and `remove_skipped_steps` on (so the first pass
draws `int(2 * 1.5) = 3` indices `[0, 1, 2]`) triggers the post-pass with a
second draw `[2, 0]`; the final kept subset then has original indices
`[2, 0]`, which is not chronological: the kept order follows the (unsorted)
second draw, not the collection order. -/
theorem c1_counterexample :
    (load_trajectory (fun i => i) (fun _ => true) (fun _ => some ()) true true false true
        (some 2) ((3 : ℚ)/2) 3 (fun _ _ => [0, 1, 2]) (fun _ _ => [2, 0])).map
      (fun r => r.timesteps.map Prod.fst) = .ok [2, 0]
    ∧ ¬ List.Pairwise (fun a b => a < b) ([2, 0] : List Nat) :=
  ⟨by decide, by decide⟩

/-- C1 (amended): whenever the post-pass subsampling triggers, the final
kept subset is `timestep_list[ind_to_keep]` in the order of the second draw
(which is not re-sorted), so it is chronological precisely when the drawn
position list is itself ascending — chronological order is not guaranteed in
general. -/
theorem c1_kept_order_follows_draw {γ : Type} (ts : List (Nat × γ)) (n : Nat)
    (rng2 : Nat → Nat → List Nat)
    (hts : List.Pairwise (fun a b => a.1 < b.1) ts)
    (hlen : n < ts.length)
    (hpos : ∀ p ∈ rng2 ts.length n, p < ts.length) :
    remove_extra_transitions (some n) rng2 ts = fancyIndex ts (rng2 ts.length n)
    ∧ (List.Pairwise (fun a b => a.1 < b.1) (remove_extra_transitions (some n) rng2 ts)
        ↔ List.Pairwise (fun a b => a < b) (rng2 ts.length n)) := by
  have heq : remove_extra_transitions (some n) rng2 ts = fancyIndex ts (rng2 ts.length n) := by
    simp [remove_extra_transitions, hlen]
  refine ⟨heq, ?_⟩
  rw [heq]
  exact fancyIndex_pairwise_iff hts _ hpos

/-- Witness for C1 (amended) on a 3-element collected list and the draw
`[2, 0]`. -/
theorem c1_kept_order_follows_draw_witness :
    remove_extra_transitions (some 2) (fun _ _ => [2, 0]) [((0 : Nat), (0 : Nat)), (1, 0), (2, 0)]
      = fancyIndex [((0 : Nat), (0 : Nat)), (1, 0), (2, 0)] [2, 0]
    ∧ (List.Pairwise (fun a b => a.1 < b.1)
          (remove_extra_transitions (some 2) (fun _ _ => [2, 0])
            [((0 : Nat), (0 : Nat)), (1, 0), (2, 0)])
        ↔ List.Pairwise (fun a b => a < b) ([2, 0] : List Nat)) :=
  c1_kept_order_follows_draw [((0 : Nat), (0 : Nat)), (1, 0), (2, 0)] 2 (fun _ _ => [2, 0])
    (by decide) (by decide) (by decide)

/-! ### Claims C5 and C3: the assembly loop -/

theorem collectLoop_all_ok {α ω : Type} (data : Nat → α) (movement : Nat → Bool)
    (cams : Nat → Option ω) (horizon : Nat) :
    ∀ (I : List Nat), (∀ j ∈ I, j < horizon) → (∀ j ∈ I, cams j ≠ none) →
      collectLoop data movement cams true false false horizon I
        = .ok (I.map (fun j => (data j, cams j)))
  | [], _, _ => rfl
  | i :: rest, hbound, hcams => by
    have hlt : i < horizon := hbound i (by simp)
    have ih := collectLoop_all_ok data movement cams horizon rest
      (fun j hj => hbound j (by simp [hj])) (fun j hj => hcams j (by simp [hj]))
    cases hc : cams i with
    | none => exact absurd hc (hcams i (by simp))
    | some obs => simp [collectLoop, hlt, hc, ih, Except.map]

theorem collectLoop_break {α ω : Type} (data : Nat → α) (movement : Nat → Bool)
    (cams : Nat → Option ω) (removeSkipped : Bool) (horizon : Nat) (k : Nat)
    (hck : cams k = none) :
    ∀ (I : List Nat), List.Pairwise (fun a b => a < b) I → (∀ j ∈ I, j < horizon) →
      k ∈ I → (∀ j ∈ I, j < k → cams j ≠ none) →
      collectLoop data movement cams true false removeSkipped horizon I
        = .ok ((I.filter (fun j => decide (j < k) && !(removeSkipped && !movement j))).map
            (fun j => (data j, cams j)))
  | [], _, _, hk, _ => absurd hk (List.not_mem_nil k)
  | i :: rest, hpair, hbound, hk, hpre => by
    have hlt : i < horizon := hbound i (by simp)
    obtain ⟨hhead, hrest⟩ := List.pairwise_cons.mp hpair
    by_cases hik : i < k
    · have hkrest : k ∈ rest := by
        cases List.mem_cons.mp hk with
        | inl h => exact absurd (h ▸ hik) (lt_irrefl k)
        | inr h => exact h
      obtain ⟨obs, hc⟩ := Option.ne_none_iff_exists'.mp (hpre i (by simp) hik)
      have ih := collectLoop_break data movement cams removeSkipped horizon k hck rest
        hrest (fun j hj => hbound j (by simp [hj])) hkrest
        (fun j hj hjk => hpre j (by simp [hj]) hjk)
      cases hrs : removeSkipped <;> cases hmi : movement i <;>
        rw [hrs] at ih <;>
        simp [collectLoop, hlt, hc, hmi, ih, Except.map, List.filter_cons, hik]
    · have hki : k = i := by
        cases List.mem_cons.mp hk with
        | inl h => exact h
        | inr h => exact absurd (hhead k h) hik
      have hknone : cams i = none := hki ▸ hck
      have hfilter :
          (i :: rest).filter (fun j => decide (j < k) && !(removeSkipped && !movement j))
            = [] := by
        refine List.filter_eq_nil_iff.mpr (fun j hj => ?_)
        cases List.mem_cons.mp hj with
        | inl h =>
          subst h
          simp [hik]
        | inr h =>
          have : i < j := hhead j h
          have : ¬ j < k := by omega
          simp [this]
      simp [collectLoop, hlt, hknone, hfilter]
      constructor
      · intro h
        exact absurd h hik
      · intro a ha hak
        have hai : a < i := hki ▸ hak
        exact absurd (lt_trans (hhead a ha) hai) (lt_irrefl i)

/-- C5: with `num_samples_per_traj = N`, `0 < N < horizon`, filtering
disabled and every sampled camera read succeeding, `load_trajectory` returns
exactly `N` timesteps, stored at the `N` distinct drawn indices in ascending
index order (the sorted first draw). -/
theorem c5_subsample_exact {α ω : Type} (data : Nat → α) (movement : Nat → Bool)
    (cams : Nat → Option ω) (isVideoFolder : Bool) (N : Nat) (coeff : ℚ) (horizon : Nat)
    (rng1 rng2 : Nat → Nat → List Nat)
    (hN : 0 < N) (hNh : N < horizon)
    (hnodup : (rng1 horizon N).Nodup)
    (hlen : (rng1 horizon N).length = N)
    (hbound : ∀ i ∈ rng1 horizon N, i < horizon)
    (hcams : ∀ i ∈ rng1 horizon N, cams i ≠ none) :
    ∃ res, load_trajectory data movement cams true true isVideoFolder false (some N) coeff
        horizon rng1 rng2 = .ok res
      ∧ res.timesteps = (List.insertionSort (fun a b => a ≤ b) (rng1 horizon N)).map
          (fun j => (data j, cams j))
      ∧ res.timesteps.length = N
      ∧ List.Pairwise (fun a b => a < b) (List.insertionSort (fun a b => a ≤ b) (rng1 horizon N)) := by
  have hN0 : N ≠ 0 := Nat.pos_iff_ne_zero.mp hN
  have hmin : min N horizon = N := Nat.min_eq_left (le_of_lt hNh)
  have hind : indicesToSave (some N) false coeff horizon rng1
      = List.insertionSort (fun a b => a ≤ b) (rng1 horizon N) := by
    simp [indicesToSave, hN0, hmin]
  have hmemS : ∀ j ∈ List.insertionSort (fun a b => a ≤ b) (rng1 horizon N), j ∈ rng1 horizon N :=
    fun j hj => (List.mem_insertionSort (fun a b => a ≤ b)).mp hj
  have hcol := collectLoop_all_ok data movement cams horizon
    (List.insertionSort (fun a b => a ≤ b) (rng1 horizon N))
    (fun j hj => hbound j (hmemS j hj)) (fun j hj => hcams j (hmemS j hj))
  have hSlen : (List.insertionSort (fun a b => a ≤ b) (rng1 horizon N)).length = N := by
    rw [List.length_insertionSort, hlen]
  have hre : remove_extra_transitions (some N) rng2
      ((List.insertionSort (fun a b => a ≤ b) (rng1 horizon N)).map (fun j => (data j, cams j)))
      = (List.insertionSort (fun a b => a ≤ b) (rng1 horizon N)).map (fun j => (data j, cams j)) := by
    simp [remove_extra_transitions, hSlen]
  have hload : load_trajectory data movement cams true true isVideoFolder false (some N) coeff
      horizon rng1 rng2
      = .ok ⟨(List.insertionSort (fun a b => a ≤ b) (rng1 horizon N)).map
          (fun j => (data j, cams j)), true, false⟩ := by
    simp only [load_trajectory, Bool.and_self, Bool.not_true, Bool.and_false, Bool.false_and,
      hind, hcol, Except.map, hre]
  refine ⟨_, hload, rfl, ?_, ?_⟩
  · simp [hSlen]
  · have hsorted : List.Pairwise (fun a b => a ≤ b)
        (List.insertionSort (fun a b => a ≤ b) (rng1 horizon N)) :=
      List.sorted_insertionSort (fun a b => a ≤ b) (rng1 horizon N)
    have hnd : (List.insertionSort (fun a b => a ≤ b) (rng1 horizon N)).Nodup :=
      ((List.perm_insertionSort (fun a b => a ≤ b) (rng1 horizon N)).nodup_iff).mpr hnodup
    exact List.Sorted.lt_of_le hsorted hnd

/-- Witness for C5: horizon 3, `N = 2`, first draw `[2, 0]`. -/
theorem c5_subsample_exact_witness :
    ∃ res, load_trajectory (fun i => i) (fun _ => true) (fun _ => some (0 : Nat)) true true
        false false (some 2) ((3 : ℚ)/2) 3 (fun _ _ => [2, 0]) (fun _ _ => []) = .ok res
      ∧ res.timesteps = (List.insertionSort (fun a b => a ≤ b) [2, 0]).map
          (fun j => (j, some (0 : Nat)))
      ∧ res.timesteps.length = 2
      ∧ List.Pairwise (fun a b => a < b)
          (List.insertionSort (fun a b => a ≤ b) ([2, 0] : List Nat)) :=
  c5_subsample_exact (fun i => i) (fun _ => true) (fun _ => some 0) false 2 ((3 : ℚ)/2) 3
    (fun _ _ => [2, 0]) (fun _ _ => []) (by decide) (by decide) (by decide) (by decide)
    (by decide) (by decide)

/-- C3: when `read_cameras` returns the `None` failure at visited index `k`
(every earlier visited index having succeeded), the assembly loop terminates
early keeping exactly the already-collected timesteps — the filtered visited
indices strictly below `k` — and the value `load_trajectory` returns contains
only timesteps whose original index is strictly less than `k`. -/
theorem c3_camera_failure_truncates {α ω : Type} (data : Nat → α) (movement : Nat → Bool)
    (cams : Nat → Option ω) (isVideoFolder removeSkipped : Bool) (numSamples : Option Nat)
    (coeff : ℚ) (horizon : Nat) (rng1 rng2 : Nat → Nat → List Nat) (k : Nat)
    (hsort : List.Pairwise (fun a b => a < b)
      (indicesToSave numSamples removeSkipped coeff horizon rng1))
    (hbound : ∀ j ∈ indicesToSave numSamples removeSkipped coeff horizon rng1, j < horizon)
    (hk : k ∈ indicesToSave numSamples removeSkipped coeff horizon rng1)
    (hfail : cams k = none)
    (hpre : ∀ j ∈ indicesToSave numSamples removeSkipped coeff horizon rng1,
      j < k → cams j ≠ none) :
    collectLoop data movement cams true false removeSkipped horizon
        (indicesToSave numSamples removeSkipped coeff horizon rng1)
      = .ok (((indicesToSave numSamples removeSkipped coeff horizon rng1).filter
          (fun j => decide (j < k) && !(removeSkipped && !movement j))).map
            (fun j => (data j, cams j)))
    ∧ ∃ res, load_trajectory data movement cams true true isVideoFolder removeSkipped
          numSamples coeff horizon rng1 rng2 = .ok res
        ∧ ∀ x ∈ res.timesteps,
            ∃ j ∈ indicesToSave numSamples removeSkipped coeff horizon rng1,
              j < k ∧ x = (data j, cams j) := by
  have hcol := collectLoop_break data movement cams removeSkipped horizon k hfail
    (indicesToSave numSamples removeSkipped coeff horizon rng1) hsort hbound hk hpre
  refine ⟨hcol, ?_⟩
  have hload : load_trajectory data movement cams true true isVideoFolder removeSkipped
      numSamples coeff horizon rng1 rng2
      = .ok ⟨remove_extra_transitions numSamples rng2
          (((indicesToSave numSamples removeSkipped coeff horizon rng1).filter
            (fun j => decide (j < k) && !(removeSkipped && !movement j))).map
              (fun j => (data j, cams j))), true, false⟩ := by
    simp only [load_trajectory, Bool.and_self, Bool.not_true, Bool.and_false, Bool.false_and,
      hcol, Except.map]
  refine ⟨_, hload, fun x hx => ?_⟩
  have hx2 := remove_extra_transitions_sub numSamples rng2 _ x hx
  obtain ⟨j, hjf, hjx⟩ := List.mem_map.mp hx2
  obtain ⟨hjI, hjp⟩ := List.mem_filter.mp hjf
  have hjk : j < k := by
    have := (Bool.and_eq_true _ _).mp hjp
    exact of_decide_eq_true this.1
  exact ⟨j, hjI, hjk, hjx.symm⟩

/-- Witness for C3: horizon 3, full index set `[0, 1, 2]`, camera failure at
index 2. -/
theorem c3_camera_failure_truncates_witness :
    collectLoop (fun i => i) (fun _ => true)
        (fun i => if i = 2 then none else some (0 : Nat)) true false false 3
        (indicesToSave none false ((3 : ℚ)/2) 3 (fun _ _ => []))
      = .ok (((indicesToSave none false ((3 : ℚ)/2) 3 (fun _ _ => [])).filter
          (fun j => decide (j < 2) && !(false && !(fun _ => true) j))).map
            (fun j => (j, if j = 2 then none else some (0 : Nat))))
    ∧ ∃ res, load_trajectory (fun i => i) (fun _ => true)
          (fun i => if i = 2 then none else some (0 : Nat)) true true false false
          none ((3 : ℚ)/2) 3 (fun _ _ => []) (fun _ _ => []) = .ok res
        ∧ ∀ x ∈ res.timesteps,
            ∃ j ∈ indicesToSave none false ((3 : ℚ)/2) 3 (fun _ _ => []),
              j < 2 ∧ x = (j, if j = 2 then none else some (0 : Nat)) :=
  c3_camera_failure_truncates (fun i => i) (fun _ => true)
    (fun i => if i = 2 then none else some (0 : Nat)) false false none ((3 : ℚ)/2) 3
    (fun _ _ => []) (fun _ _ => []) 2 (by decide) (by decide) (by decide) (by decide)
    (by decide)

/-! ### Claim C7 -/

theorem H5.recMem {motive : H5 → Prop} (hd : ∀ s n, motive (H5.dataset s n))
    (hg : ∀ s cs, (∀ c ∈ cs, motive c) → motive (H5.group s cs)) : ∀ t, motive t
  | H5.dataset s n => hd s n
  | H5.group s cs => hg s cs (fun c hc =>
      have : sizeOf c < sizeOf (H5.group s cs) := by
        have := List.sizeOf_lt_of_mem hc
        simp only [H5.group.sizeOf_spec]
        omega
      H5.recMem hd hg c)
termination_by t => sizeOf t

theorem lengthFold_cons_notmem (ignore : List String) (c : H5) (rest : List H5)
    (len0 : Option Nat) (hig : c.nodeName ∉ ignore) :
    lengthFold ignore (c :: rest) len0 =
      match get_hdf5_length ignore c with
      | .error e => .error e
      | .ok curr =>
        if curr = (if len0 = none then curr else len0)
        then lengthFold ignore rest (if len0 = none then curr else len0)
        else .error .assertionError := by
  simp only [lengthFold, hig, if_false]

theorem lengthFold_sound (ignore : List String) :
    ∀ (cs : List H5),
      (∀ c ∈ cs, ∀ r, get_hdf5_length ignore c = .ok r → ∀ x ∈ leafLens ignore c, r = some x) →
      ∀ (len0 r : Option Nat), lengthFold ignore cs len0 = .ok r →
        (∀ x ∈ leafLensList ignore cs, r = some x) ∧ (∀ l0, len0 = some l0 → r = some l0)
  | [], _, len0, r, h => by
    rw [lengthFold] at h
    have heq := Except.ok.inj h
    subst heq
    exact ⟨by simp [leafLensList], fun l0 hl0 => hl0⟩
  | c :: rest, hc, len0, r, h => by
    by_cases hig : c.nodeName ∈ ignore
    · simp only [lengthFold, hig, if_true] at h
      have ih := lengthFold_sound ignore rest (fun d hd => hc d (by simp [hd])) len0 r h
      refine ⟨fun x hx => ?_, ih.2⟩
      rw [leafLensList, if_pos hig, List.nil_append] at hx
      exact ih.1 x hx
    · rw [lengthFold_cons_notmem ignore c rest len0 hig] at h
      cases hget : get_hdf5_length ignore c with
      | error e =>
        simp only [hget] at h
        exact Except.noConfusion h
      | ok curr =>
        simp only [hget] at h
        by_cases hguard : curr = (if len0 = none then curr else len0)
        · rw [if_pos hguard] at h
          have ih := lengthFold_sound ignore rest (fun d hd => hc d (by simp [hd]))
            (if len0 = none then curr else len0) r h
          have hcurr : ∀ x ∈ leafLens ignore c, curr = some x :=
            hc c (by simp) curr hget
          constructor
          · intro x hx
            rw [leafLensList, if_neg hig] at hx
            rcases List.mem_append.mp hx with hx1 | hx2
            · have hcx := hcurr x hx1
              cases hlen0 : len0 with
              | none =>
                apply ih.2 x
                rw [hlen0]
                simpa using hcx
              | some l0 =>
                rw [hlen0] at hguard
                simp only [reduceCtorEq, if_neg] at hguard
                have hguard2 : curr = some l0 := by simpa using hguard
                have hxl : x = l0 := Option.some.inj (hguard2.symm.trans hcx).symm
                subst hxl
                apply ih.2 x
                rw [hlen0]
                simp
            · exact ih.1 x hx2
          · intro l0 hl0
            subst hl0
            apply ih.2 l0
            simp
        · rw [if_neg hguard] at h
          exact Except.noConfusion h

theorem get_hdf5_length_sound (ignore : List String) :
    ∀ (t : H5) (r : Option Nat), get_hdf5_length ignore t = .ok r →
      ∀ x ∈ leafLens ignore t, r = some x := by
  intro t
  induction t using H5.recMem with
  | hd s n =>
    intro r h x hx
    rw [get_hdf5_length] at h
    rw [leafLens] at hx
    have := Except.ok.inj h
    subst this
    simpa using (List.mem_singleton.mp hx) ▸ rfl
  | hg s cs hmem =>
    intro r h x hx
    rw [get_hdf5_length] at h
    rw [leafLens] at hx
    exact (lengthFold_sound ignore cs hmem none r h).1 x hx

theorem lengthFold_err (ignore : List String) :
    ∀ (cs : List H5),
      (∀ c ∈ cs, ∀ e, get_hdf5_length ignore c = .error e → e = .assertionError) →
      ∀ (len0 : Option Nat) (e : PyErr), lengthFold ignore cs len0 = .error e →
        e = .assertionError
  | [], _, len0, e, h => by
    rw [lengthFold] at h
    exact Except.noConfusion h
  | c :: rest, hc, len0, e, h => by
    by_cases hig : c.nodeName ∈ ignore
    · simp only [lengthFold, hig, if_true] at h
      exact lengthFold_err ignore rest (fun d hd => hc d (by simp [hd])) len0 e h
    · rw [lengthFold_cons_notmem ignore c rest len0 hig] at h
      cases hget : get_hdf5_length ignore c with
      | error e2 =>
        simp only [hget] at h
        exact (Except.error.inj h) ▸ hc c (by simp) e2 hget
      | ok curr =>
        simp only [hget] at h
        by_cases hguard : curr = (if len0 = none then curr else len0)
        · rw [if_pos hguard] at h
          exact lengthFold_err ignore rest (fun d hd => hc d (by simp [hd])) _ e h
        · rw [if_neg hguard] at h
          exact (Except.error.inj h).symm

theorem get_hdf5_length_err (ignore : List String) :
    ∀ (t : H5) (e : PyErr), get_hdf5_length ignore t = .error e → e = .assertionError := by
  intro t
  induction t using H5.recMem with
  | hd s n =>
    intro e h
    rw [get_hdf5_length] at h
    exact Except.noConfusion h
  | hg s cs hmem =>
    intro e h
    rw [get_hdf5_length] at h
    exact lengthFold_err ignore cs hmem none e h

theorem groupsOKList_mem (ignore : List String) :
    ∀ (cs : List H5), groupsOKList ignore cs = true →
      ∀ c ∈ cs, (decide (c.nodeName ∈ ignore) || groupsOK ignore c) = true
  | [], _, c, hc => absurd hc (List.not_mem_nil c)
  | d :: rest, h, c, hc => by
    rw [groupsOKList, Bool.and_eq_true] at h
    cases List.mem_cons.mp hc with
    | inl he => exact he ▸ h.1
    | inr he => exact groupsOKList_mem ignore rest h.2 c he

theorem leafLens_mem_list (ignore : List String) :
    ∀ (cs : List H5) (c : H5), c ∈ cs → c.nodeName ∉ ignore →
      ∀ x ∈ leafLens ignore c, x ∈ leafLensList ignore cs
  | [], c, hc, _, x, _ => absurd hc (List.not_mem_nil c)
  | d :: rest, c, hc, hig, x, hx => by
    rw [leafLensList, List.mem_append]
    cases List.mem_cons.mp hc with
    | inl he =>
      subst he
      rw [if_neg hig]
      exact Or.inl hx
    | inr he => exact Or.inr (leafLens_mem_list ignore rest c he hig x hx)

theorem groupsOK_leafLens_ne (ignore : List String) :
    ∀ (t : H5), groupsOK ignore t = true → leafLens ignore t ≠ [] := by
  intro t
  induction t using H5.recMem with
  | hd s n =>
    intro _
    simp [leafLens]
  | hg s cs hmem =>
    intro h
    rw [groupsOK, Bool.and_eq_true] at h
    obtain ⟨c, hcin, hcb⟩ := List.any_eq_true.mp h.1
    have hig : c.nodeName ∉ ignore := by simpa using hcb
    have hok : groupsOK ignore c = true := by
      have := groupsOKList_mem ignore cs h.2 c hcin
      rw [Bool.or_eq_true] at this
      cases this with
      | inl hbad => exact absurd (of_decide_eq_true hbad) hig
      | inr hgood => exact hgood
    have hne := hmem c hcin hok
    obtain ⟨x, hx⟩ := List.exists_mem_of_ne_nil _ hne
    rw [leafLens]
    exact List.ne_nil_of_mem (leafLens_mem_list ignore cs c hcin hig x hx)

theorem lengthFold_complete (ignore : List String) (L : Nat) :
    ∀ (cs : List H5),
      (∀ c ∈ cs, c.nodeName ∉ ignore → get_hdf5_length ignore c = .ok (some L)) →
      lengthFold ignore cs (some L) = .ok (some L) ∧
      lengthFold ignore cs none = .ok (if hasNonIgnored ignore cs then some L else none)
  | [], _ => by
    constructor <;> simp [lengthFold, hasNonIgnored]
  | c :: rest, hc => by
    have ih := lengthFold_complete ignore L rest (fun d hd hnig => hc d (by simp [hd]) hnig)
    by_cases hig : c.nodeName ∈ ignore
    · have h1 : hasNonIgnored ignore (c :: rest) = hasNonIgnored ignore rest := by
        simp [hasNonIgnored, hig]
      constructor
      · simp only [lengthFold, hig, if_true]
        exact ih.1
      · simp only [lengthFold, hig, if_true]
        rw [h1]
        exact ih.2
    · have hok : get_hdf5_length ignore c = .ok (some L) := hc c (by simp) hig
      have h1 : hasNonIgnored ignore (c :: rest) = true := by
        simp [hasNonIgnored, hig]
      constructor
      · rw [lengthFold_cons_notmem ignore c rest (some L) hig]
        simp [hok, ih.1]
      · rw [lengthFold_cons_notmem ignore c rest none hig]
        simp [hok, ih.1, h1]

theorem get_hdf5_length_complete (ignore : List String) :
    ∀ (t : H5) (L : Nat), groupsOK ignore t = true → (∀ x ∈ leafLens ignore t, x = L) →
      get_hdf5_length ignore t = .ok (some L) := by
  intro t
  induction t using H5.recMem with
  | hd s n =>
    intro L _ hall
    have : n = L := hall n (by rw [leafLens]; simp)
    subst this
    rw [get_hdf5_length]
  | hg s cs hmem =>
    intro L hok hall
    rw [groupsOK, Bool.and_eq_true] at hok
    have hchild : ∀ c ∈ cs, c.nodeName ∉ ignore → get_hdf5_length ignore c = .ok (some L) := by
      intro c hcin hig
      have hgok : groupsOK ignore c = true := by
        have := groupsOKList_mem ignore cs hok.2 c hcin
        rw [Bool.or_eq_true] at this
        cases this with
        | inl hbad => exact absurd (of_decide_eq_true hbad) hig
        | inr hgood => exact hgood
      exact hmem c hcin L hgok
        (fun x hx => hall x (by rw [leafLens]; exact leafLens_mem_list ignore cs c hcin hig x hx))
    have := (lengthFold_complete ignore L cs hchild).2
    rw [get_hdf5_length, this, hok.1, if_pos rfl]

/-- C7: refuted as stated — a log whose only leaf series has length 1 (so
all leaf series trivially share the same length) but which also contains an
empty group after that leaf makes `get_hdf5_length` raise `AssertionError`
(the empty group's recursive call returns `None`, which fails the
`assert curr_length == length` comparison), instead of computing length 1. -/
theorem c7_counterexample :
    (∀ x ∈ leafLens [] (H5.group "root" [H5.dataset "a" 1, H5.group "b" []]), x = 1)
    ∧ trajectoryReaderLength (H5.group "root" [H5.dataset "a" 1, H5.group "b" []])
        = .error PyErr.assertionError :=
  ⟨by decide, by decide⟩

/-- C7 (amended): provided every group of the log transitively contains at
least one non-ignored leaf (`groupsOK`), a log whose leaf series all have
length `L` yields `length() = L`; and (unconditionally) a log containing two
leaves of different lengths fails with `AssertionError` rather than
returning a length. -/
theorem c7_length_validation :
    (∀ (file : H5) (L : Nat), groupsOK [] file = true → (∀ x ∈ leafLens [] file, x = L) →
      trajectoryReaderLength file = .ok (some L))
    ∧ (∀ (file : H5) (x y : Nat), x ∈ leafLens [] file → y ∈ leafLens [] file → x ≠ y →
      trajectoryReaderLength file = .error PyErr.assertionError) := by
  constructor
  · intro file L hok hall
    exact get_hdf5_length_complete [] file L hok hall
  · intro file x y hx hy hxy
    cases h : trajectoryReaderLength file with
    | ok r =>
      have hsound := get_hdf5_length_sound [] file r h
      have h1 := hsound x hx
      have h2 := hsound y hy
      exact absurd (Option.some.inj (h1.symm.trans h2)) hxy
    | error e =>
      rw [get_hdf5_length_err [] file e h]

/-- Witness for C7 (amended): a nested log with all leaves of length 5, and
a flat log with leaf lengths 5 and 7. -/
theorem c7_length_validation_witness :
    trajectoryReaderLength
        (H5.group "root" [H5.dataset "a" 5, H5.group "g" [H5.dataset "b" 5]])
      = .ok (some 5)
    ∧ trajectoryReaderLength (H5.group "root" [H5.dataset "a" 5, H5.dataset "b" 7])
      = .error PyErr.assertionError :=
  ⟨c7_length_validation.1 (H5.group "root" [H5.dataset "a" 5, H5.group "g" [H5.dataset "b" 5]]) 5
      (by decide) (by decide),
   c7_length_validation.2 (H5.group "root" [H5.dataset "a" 5, H5.dataset "b" 7]) 5 7
      (by decide) (by decide) (by decide)⟩
